import Mathlib

/-!
# Verification of the Tor `ADD_ONION` command adapter

A shallow embedding of `comms/src/tor/commands/add_onion.rs`: the
`AddOnion` command structure, its wire serialization
(`to_command_string`) and its response parser (`parse_responses`),
together with theorems settling the claims of the specification.

Collaborator types that live outside the embedded file (`KeyType`,
`KeyBlob`, `ResponseLine`, the shared key-value line parser) are
modelled from the description of their interface in the specification;
each such definition says so in its doc comment.
-/

deriving instance DecidableEq for Except

namespace Tari.Tor

/-- Modelled from the spec: the key-type tokens are an external contract,
`KeyTypeToken ∈ {NEW, RSA1024, ED25519-V3}`, each variant mapping to a
fixed textual token. -/
inductive KeyType where
  | New
  | Rsa1024
  | Ed25519V3
deriving DecidableEq

/-- Modelled from the spec: the fixed textual token of each key type. -/
def KeyType.as_tor_repr : KeyType → String
  | .New => "NEW"
  | .Rsa1024 => "RSA1024"
  | .Ed25519V3 => "ED25519-V3"

/-- Modelled from the spec: the key blob is "treated as an opaque string
for serialization purposes". -/
structure KeyBlob where
  blob : String
deriving DecidableEq

/-- Modelled from the spec: the textual encoding of the blob is the opaque
string itself. -/
def KeyBlob.as_tor_repr (b : KeyBlob) : String := b.blob

/-- `AddOnionFlag` from the source: the closed set of behavioural flags. -/
inductive AddOnionFlag where
  | DiscardPK
  | Detach
  | BasicAuth
  | NonAnonymous
  | MaxStreamsCloseCircuit
deriving DecidableEq

/-- The canonical textual token of each flag, from the source
(`impl ToString for AddOnionFlag`). -/
def AddOnionFlag.toString : AddOnionFlag → String
  | .DiscardPK => "DiscardPK"
  | .Detach => "Detach"
  | .BasicAuth => "BasicAuth"
  | .NonAnonymous => "NonAnonymous"
  | .MaxStreamsCloseCircuit => "MaxStreamsCloseCircuit"

/-- Modelled from the spec: the private key returned by the far end carries
an algorithm tag from a small closed set together with algorithm-tagged key
material (the payload is its textual encoding, kept opaque). -/
inductive PrivateKey where
  | Ed25519V3 (key : String)
  | Rsa1024 (key : String)
deriving DecidableEq

/-- The subset of `TorClientError` variants reachable from the embedded file, plus the
parse-error case (`ParseError` converts into the client error via
`From<ParseError>` in the source). -/
inductive TorClientError where
  | UnexpectedEof
  | TorCommandFailed (msg : String)
  | AddOnionNoServiceId
  | ParseError (msg : String)
deriving DecidableEq

/-- Modelled from the spec: a response line as handed to the command by
the transport. The status-line grammar is external; it "yields either
nothing (success) or an error message (failure) — exposed to this core
as a single optional string" (`err`), next to the textual value of the line. -/
structure ResponseLine where
  value : String
  err : Option String
deriving DecidableEq

/-- Modelled from the spec: build a `ResponseLine` from a raw textual
line, as the examples in the spec write them. A line `NNN msg` with a
three-digit status code exposes `msg` as the value, and as the error
message exactly when the code is not in the success class (`2xx`); any
other line is a plain data line with no error. -/
def mkResponseLine (line : String) : ResponseLine :=
  match line.data with
  | a :: b :: c :: d :: rest =>
    if a.isDigit && b.isDigit && c.isDigit && d = ' ' then
      let msg := String.mk rest
      if a = '2' then ⟨msg, none⟩ else ⟨msg, some msg⟩
    else ⟨line, none⟩
  | _ => ⟨line, none⟩

/-- Split a character list at the first occurrence of `c`: `none` when
`c` does not occur, otherwise the parts strictly before and after the
first occurrence. -/
def splitFirst (c : Char) : List Char → Option (List Char × List Char)
  | [] => none
  | a :: as =>
    if a = c then some ([], as)
    else (splitFirst c as).map fun p => (a :: p.1, p.2)

/-- Modelled from the spec: the shared key-value line parser. Per the
response line grammar a non-status line is `Key=Value` or `Key` with
empty value, so the line is split at the first `=`. -/
def key_value (line : String) : String × String :=
  match splitFirst '=' line.data with
  | none => (line, "")
  | some (k, v) => (String.mk k, String.mk v)

/-- The Rust `str::split` on a single separator character: the list of
segments between occurrences of `c`, always non-empty, with empty
segments kept. -/
def splitChars (c : Char) : List Char → List (List Char)
  | [] => [[]]
  | a :: as =>
    let r := splitChars c as
    if a = c then [] :: r
    else
      match r with
      | [] => [[a]]
      | b :: bs => (a :: b) :: bs

/-- The `value.split(':')` iterator used by the `PrivateKey` branch of
the source, as the list of `String` segments. -/
def rustSplit (c : Char) (s : String) : List String :=
  (splitChars c s.data).map String.mk

/-- The `PrivateKey` branch of the source, applied to the value of a
`PrivateKey=` data line: `split.next()` twice (the segment before the
first colon, then the segment after it up to the next colon), then the
dispatch on the algorithm tag. -/
def parse_private_key (value : String) : Except TorClientError PrivateKey :=
  let split := rustSplit ':' value
  match split.head? with
  | none => .error (.ParseError "PrivateKey field was empty")
  | some key =>
    match split[1]? with
    | none => .error (.ParseError "Failed to parse private key")
    | some v =>
      if key = "ED25519-V3" then .ok (.Ed25519V3 v)
      else if key = "RSA1024" then .ok (.Rsa1024 v)
      else .error (.ParseError ("Server returned unrecognised private key type \x27" ++ key ++ "\x27"))

/-- The `for response in responses` loop of the source: fold over the data
lines, tracking the mutable `service_id` and `private_key` slots
(last-seen value wins), with early return on a private-key parse
error. Unknown keys are ignored. -/
def processLines : List ResponseLine → Option String → Option PrivateKey →
    Except TorClientError (Option String × Option PrivateKey)
  | [], sid, pk => .ok (sid, pk)
  | r :: rs, sid, pk =>
    let kv := key_value r.value
    if kv.1 = "ServiceID" then processLines rs (some kv.2) pk
    else if kv.1 = "PrivateKey" then
      match parse_private_key kv.2 with
      | .error e => .error e
      | .ok k => processLines rs sid (some k)
    else processLines rs sid pk

/-- The Rust `Vec::join` with separator `","`, as used by the flag
serialization in the source. -/
def joinComma : List String → String
  | [] => ""
  | [s] => s
  | s :: ss => s ++ "," ++ joinComma ss

/-- Structure `AddOnionResponse` from the source. -/
structure AddOnionResponse where
  service_id : String
  private_key : Option PrivateKey
deriving DecidableEq

/-- Structure `AddOnion` from the source (the lifetime marker is erased; the
forwarding `SocketAddr` is kept as its textual `address:port` rendering;
`NonZeroU16` is a positive number). -/
structure AddOnion where
  key_type : KeyType
  key_blob : KeyBlob
  flags : List AddOnionFlag
  port : Nat × Option String
  num_streams : Option {n : Nat // 0 < n}
deriving DecidableEq

/-- Function `AddOnion::to_command_string` from the source. -/
def to_command_string (c : AddOnion) : Except TorClientError String :=
  let s := "ADD_ONION "
  let s := s ++ c.key_type.as_tor_repr
  let s := s.push ':'
  let s := s ++ c.key_blob.as_tor_repr
  let s :=
    if c.flags.length > 0 then
      s ++ (" Flags=" ++ joinComma (c.flags.map AddOnionFlag.toString))
    else s
  let s :=
    match c.num_streams with
    | some n => s ++ (" NumStreams=" ++ toString n.val)
    | none => s
  let s :=
    s ++ (" Port=" ++ toString c.port.1 ++
      (match c.port.2 with
       | some addr => "," ++ addr
       | none => ""))
  .ok s

/-- Function `AddOnion::parse_responses` from the source: pop the last line as
the status line (no line at all is `UnexpectedEof`; a status error is
`TorCommandFailed` with the message), run the loop over the data lines,
then require the service id. -/
def parse_responses (responses : List ResponseLine) :
    Except TorClientError AddOnionResponse :=
  match responses.getLast? with
  | none => .error .UnexpectedEof
  | some last_response =>
    match last_response.err with
    | some e => .error (.TorCommandFailed e)
    | none =>
      match processLines responses.dropLast none none with
      | .error e => .error e
      | .ok (sid, pk) =>
        match sid with
        | none => .error .AddOnionNoServiceId
        | some service_id => .ok ⟨service_id, pk⟩

/-- Parse a response given as raw textual lines, the way the spec examples
write it. -/
def parseLines (lines : List String) : Except TorClientError AddOnionResponse :=
  parse_responses (lines.map mkResponseLine)

/-- Modelled from the spec (request serialization algorithm, steps 1 to 5,
and the request wire format of section 6): verb token, separator, key-type
token and key blob joined by a colon; a `Flags=` clause joined by commas
only when the flag list is non-empty; a `NumStreams=` clause only when a
stream limit is present; always a `Port=` clause with the virtual port,
followed by a comma and the textual forwarding address only when one is
present. -/
def spec_request_line (c : AddOnion) : String :=
  "ADD_ONION " ++ c.key_type.as_tor_repr ++ ":" ++ c.key_blob.as_tor_repr
    ++ (if c.flags = [] then ""
        else " Flags=" ++ joinComma (c.flags.map AddOnionFlag.toString))
    ++ (match c.num_streams with
        | some n => " NumStreams=" ++ toString n.val
        | none => "")
    ++ (" Port=" ++ toString c.port.1
        ++ (match c.port.2 with
            | some addr => "," ++ addr
            | none => ""))

theorem push_colon (s : String) : s.push ':' = s ++ ":" := by
  apply String.ext
  rw [String.data_push, String.data_append]

theorem str_append_empty (s : String) : s ++ "" = s := by
  apply String.ext
  rw [String.data_append]
  exact List.append_nil _

theorem str_empty_append (s : String) : "" ++ s = s := by
  apply String.ext
  rw [String.data_append]
  rfl

/-- C1: a successful status line preceded by data lines yields the
successful result built from the data lines: the two examples of the
spec, one without and one with a generated private key. -/
theorem parse_success_examples :
    parseLines ["ServiceID=abc", "250 OK"] = .ok ⟨"abc", none⟩ ∧
    parseLines ["ServiceID=abc", "PrivateKey=ED25519-V3:deadbeef", "250 OK"] =
      .ok ⟨"abc", some (.Ed25519V3 "deadbeef")⟩ := by
  constructor <;> rfl

/-- C2: for every command value, `to_command_string` returns exactly the
line the spec describes (fixed field order, `Flags=` and `NumStreams=`
only when non-empty and present, `Port=` always); in particular the
concrete example serializes to
`ADD_ONION NEW:this-is-a-key Port=9090`. -/
theorem to_command_string_follows_spec :
    (∀ c : AddOnion, to_command_string c = .ok (spec_request_line c)) ∧
    to_command_string ⟨.New, ⟨"this-is-a-key"⟩, [], (9090, none), none⟩ =
      .ok "ADD_ONION NEW:this-is-a-key Port=9090" := by
  refine ⟨fun c => ?_, by decide⟩
  obtain ⟨kt, kb, fl, p, ns⟩ := c
  simp only [to_command_string, spec_request_line, push_colon]
  cases fl <;> cases ns <;>
    simp [str_append_empty, String.append_assoc]

/-- C7: the empty response-line sequence fails with the distinct
unexpected-end-of-input error. -/
theorem empty_response_eof :
    parse_responses [] = .error .UnexpectedEof ∧
    parseLines [] = .error .UnexpectedEof :=
  ⟨rfl, rfl⟩

theorem parse_responses_status_failed (rs : List ResponseLine)
    (last : ResponseLine) (msg : String) (h : last.err = some msg) :
    parse_responses (rs ++ [last]) = .error (.TorCommandFailed msg) := by
  unfold parse_responses
  rw [List.getLast?_concat]
  simp only [h]

/-- C5: whenever the last response line carries an error message, parsing
fails with a command-rejected error carrying that message verbatim,
whatever the earlier data lines hold. -/
theorem status_error_rejected (rs : List ResponseLine) (last : ResponseLine)
    (msg : String) (h : last.err = some msg) :
    parse_responses (rs ++ [last]) = .error (.TorCommandFailed msg) :=
  parse_responses_status_failed rs last msg h

/-- Witness for C5: the single line `550 Onion address collision` fails
with the protocol-rejection error carrying `Onion address collision`. -/
theorem status_error_rejected_witness :
    parseLines ["550 Onion address collision"] =
      .error (.TorCommandFailed "Onion address collision") :=
  status_error_rejected [] (mkResponseLine "550 Onion address collision")
    "Onion address collision" rfl

theorem splitChars_ne_nil (c : Char) (l : List Char) : splitChars c l ≠ [] := by
  induction l with
  | nil => simp [splitChars]
  | cons a as ih =>
    simp only [splitChars]
    split
    · simp
    · cases h : splitChars c as with
      | nil => exact absurd h ih
      | cons b bs => simp

theorem splitChars_of_not_mem (c : Char) (l : List Char) (h : c ∉ l) :
    splitChars c l = [l] := by
  induction l with
  | nil => rfl
  | cons a as ih =>
    have ha : a ≠ c := fun he => h (he ▸ List.mem_cons_self a as)
    have hm : c ∉ as := fun hm => h (List.mem_cons_of_mem _ hm)
    simp only [splitChars]
    rw [if_neg ha, ih hm]

theorem splitChars_append (c : Char) (l₁ l₂ : List Char) (h : c ∉ l₁) :
    splitChars c (l₁ ++ c :: l₂) = l₁ :: splitChars c l₂ := by
  induction l₁ with
  | nil => simp [splitChars]
  | cons a as ih =>
    have ha : a ≠ c := fun he => h (he ▸ List.mem_cons_self a as)
    have hm : c ∉ as := fun hm => h (List.mem_cons_of_mem _ hm)
    rw [List.cons_append]
    simp only [splitChars]
    rw [if_neg ha, ih hm]

theorem splitChars_head (c : Char) (l : List Char) :
    (splitChars c l).head? = some (l.takeWhile fun a => a ≠ c) := by
  induction l with
  | nil => rfl
  | cons a as ih =>
    simp only [splitChars, List.takeWhile_cons]
    by_cases ha : a = c
    · subst ha
      rw [if_pos rfl]
      simp
    · rw [if_neg ha]
      cases h : splitChars c as with
      | nil => exact absurd h (splitChars_ne_nil c as)
      | cons b bs =>
        rw [h] at ih
        simp only [List.head?_cons, Option.some.injEq] at ih
        simp [ha, ih]

theorem dropWhile_head_false (p : Char → Bool) (l : List Char) (x : Char)
    (t : List Char) (h : l.dropWhile p = x :: t) : p x = false := by
  induction l with
  | nil => simp [List.dropWhile] at h
  | cons a as ih =>
    rw [List.dropWhile_cons] at h
    by_cases hp : p a
    · rw [if_pos hp] at h
      exact ih h
    · rw [if_neg hp] at h
      cases h
      simpa using hp

theorem not_mem_takeWhile_ne (c : Char) (l : List Char) :
    c ∉ l.takeWhile fun a => a ≠ c := by
  intro hm
  have := List.mem_takeWhile_imp hm
  simp at this

/-- Characterization of the private-key value parser: the algorithm tag
is the text before the first colon, the payload is the segment between
the first and the second colon (or everything after the first colon when
no second colon exists); a value with no colon at all is the
failed-to-parse error, and the tag is dispatched against the two
recognized algorithm identifiers. -/
theorem parse_private_key_characterization (v : String) :
    parse_private_key v =
      match v.data.dropWhile (fun a => a ≠ ':') with
      | [] => .error (.ParseError "Failed to parse private key")
      | _ :: t =>
        let tag := String.mk (v.data.takeWhile fun a => a ≠ ':')
        let payload := String.mk (t.takeWhile fun a => a ≠ ':')
        if tag = "ED25519-V3" then .ok (.Ed25519V3 payload)
        else if tag = "RSA1024" then .ok (.Rsa1024 payload)
        else .error (.ParseError
          ("Server returned unrecognised private key type \x27" ++ tag ++ "\x27")) := by
  have hsplit := List.takeWhile_append_dropWhile (fun a => decide (a ≠ ':')) v.data
  cases hdrop : v.data.dropWhile (fun a => a ≠ ':') with
  | nil =>
    rw [hdrop, List.append_nil] at hsplit
    have hnc : ':' ∉ v.data := by
      rw [← hsplit]
      exact not_mem_takeWhile_ne ':' v.data
    unfold parse_private_key rustSplit
    rw [splitChars_of_not_mem ':' v.data hnc]
    rfl
  | cons x t =>
    have hx : x = ':' := by
      have := dropWhile_head_false (fun a => decide (a ≠ ':')) v.data x t hdrop
      simpa using this
    subst hx
    rw [hdrop] at hsplit
    have hnc : ':' ∉ v.data.takeWhile fun a => a ≠ ':' :=
      not_mem_takeWhile_ne ':' v.data
    set tw := v.data.takeWhile fun a => a ≠ ':' with htw
    have hv : v.data = tw ++ ':' :: t := hsplit.symm
    unfold parse_private_key rustSplit
    rw [hv, splitChars_append ':' tw t hnc]
    simp only [List.map_cons, List.head?_cons]
    have h1 : ((String.mk tw) :: (splitChars ':' t).map String.mk)[1]? =
        ((splitChars ':' t).map String.mk).head? := by
      cases hsc : (splitChars ':' t).map String.mk with
      | nil =>
        rw [List.map_eq_nil_iff] at hsc
        exact absurd hsc (splitChars_ne_nil ':' t)
      | cons b bs => simp
    rw [h1, List.head?_map, splitChars_head ':' t]
    rfl

/-- The private-key value parser never returns the empty-field error:
the split iterator always has a first element. -/
theorem parse_private_key_ne_empty_err (v : String) :
    parse_private_key v ≠ .error (.ParseError "PrivateKey field was empty") := by
  rw [parse_private_key_characterization]
  cases v.data.dropWhile (fun a => a ≠ ':') with
  | nil =>
    intro he
    simp only [Except.error.injEq, TorClientError.ParseError.injEq] at he
    exact absurd (congrArg String.length he) (by decide)
  | cons x t =>
    simp only
    split_ifs
    · simp
    · simp
    · intro he
      simp only [Except.error.injEq, TorClientError.ParseError.injEq] at he
      have hl := congrArg String.length he
      rw [String.length_append, String.length_append] at hl
      have h46 : ("Server returned unrecognised private key type \x27").length = 47 := by
        decide
      have h1 : ("\x27" : String).length = 1 := by decide
      have h26 : ("PrivateKey field was empty" : String).length = 26 := by decide
      rw [h46, h1, h26] at hl
      omega

theorem processLines_cons_sid (r : ResponseLine) (rs : List ResponseLine)
    (sid : Option String) (pk : Option PrivateKey)
    (hk : (key_value r.value).1 = "ServiceID") :
    processLines (r :: rs) sid pk =
      processLines rs (some (key_value r.value).2) pk := by
  simp only [processLines]
  rw [hk]
  simp

theorem processLines_cons_pk (r : ResponseLine) (rs : List ResponseLine)
    (sid : Option String) (pk : Option PrivateKey)
    (hk : (key_value r.value).1 = "PrivateKey") :
    processLines (r :: rs) sid pk =
      match parse_private_key (key_value r.value).2 with
      | .error e => .error e
      | .ok k => processLines rs sid (some k) := by
  simp only [processLines]
  rw [hk]
  simp

theorem processLines_cons_other (r : ResponseLine) (rs : List ResponseLine)
    (sid : Option String) (pk : Option PrivateKey)
    (h1 : (key_value r.value).1 ≠ "ServiceID")
    (h2 : (key_value r.value).1 ≠ "PrivateKey") :
    processLines (r :: rs) sid pk = processLines rs sid pk := by
  simp only [processLines]
  rw [if_neg h1, if_neg h2]

/-- Splitting `parse_responses` into status handling and the data-line
loop, for a sequence ending in a successful status line. -/
theorem parse_responses_concat (rs : List ResponseLine) (last : ResponseLine)
    (h : last.err = none) :
    parse_responses (rs ++ [last]) =
      match processLines rs none none with
      | .error e => .error e
      | .ok (sid, pk) =>
        match sid with
        | none => .error .AddOnionNoServiceId
        | some service_id => .ok ⟨service_id, pk⟩ := by
  unfold parse_responses
  rw [List.getLast?_concat, List.dropLast_concat]
  simp only [h]

/-- A response whose only data lines are a `ServiceID=abc` line and one
`PrivateKey=` line reduces to the private-key value parser on the value
of that line. -/
theorem parseLines_single_pk (v : String) :
    parseLines ["ServiceID=abc", "PrivateKey=" ++ v, "250 OK"] =
      match parse_private_key v with
      | .error e => .error e
      | .ok k => .ok ⟨"abc", some k⟩ := by
  show parse_responses
    ([mkResponseLine "ServiceID=abc", mkResponseLine ("PrivateKey=" ++ v)] ++
      [mkResponseLine "250 OK"]) = _
  rw [parse_responses_concat
        [mkResponseLine "ServiceID=abc", mkResponseLine ("PrivateKey=" ++ v)]
        (mkResponseLine "250 OK") rfl,
    processLines_cons_sid (mkResponseLine "ServiceID=abc")
        [mkResponseLine ("PrivateKey=" ++ v)] none none rfl,
    processLines_cons_pk (mkResponseLine ("PrivateKey=" ++ v)) [] _ _ rfl,
    show (key_value (mkResponseLine ("PrivateKey=" ++ v)).value).2 = v from rfl]
  cases parse_private_key v with
  | error e => rfl
  | ok k => rfl

/-- C3 as amended: for a recognized `PrivateKey` data line the value
splits at colons; the algorithm tag is the text before the first colon,
the payload is the segment between the first and second colon (to the
end when no second colon exists); a missing colon is a parse error, an
empty tag falls into the unrecognized-tag parse error, and an empty
payload is accepted as an empty key payload. -/
theorem privateKey_value_splitting (v : String) :
    parseLines ["ServiceID=abc", "PrivateKey=" ++ v, "250 OK"] =
      match v.data.dropWhile (fun a => a ≠ ':') with
      | [] => .error (.ParseError "Failed to parse private key")
      | _ :: t =>
        let tag := String.mk (v.data.takeWhile fun a => a ≠ ':')
        let payload := String.mk (t.takeWhile fun a => a ≠ ':')
        if tag = "ED25519-V3" then .ok ⟨"abc", some (.Ed25519V3 payload)⟩
        else if tag = "RSA1024" then .ok ⟨"abc", some (.Rsa1024 payload)⟩
        else .error (.ParseError
          ("Server returned unrecognised private key type \x27" ++ tag ++ "\x27")) := by
  rw [parseLines_single_pk, parse_private_key_characterization]
  cases v.data.dropWhile (fun a => a ≠ ':') with
  | nil => rfl
  | cons x t =>
    simp only
    split_ifs <;> rfl

/-- Counterexample to C3 as stated: the code does not reject an empty
payload (an `ED25519-V3` private key with empty payload is accepted),
and the payload is not everything after the first colon (a second colon
truncates it). -/
theorem privateKey_split_counterexample :
    parseLines ["ServiceID=abc", "PrivateKey=ED25519-V3:", "250 OK"] =
      .ok ⟨"abc", some (.Ed25519V3 "")⟩ ∧
    parseLines ["ServiceID=abc", "PrivateKey=ED25519-V3:aa:bb", "250 OK"] =
      .ok ⟨"abc", some (.Ed25519V3 "aa")⟩ := by
  constructor <;> rfl

theorem parse_private_key_tagged (tag payload : String) (ht : ':' ∉ tag.data)
    (hp : ':' ∉ payload.data) :
    parse_private_key (tag ++ ":" ++ payload) =
      if tag = "ED25519-V3" then .ok (.Ed25519V3 payload)
      else if tag = "RSA1024" then .ok (.Rsa1024 payload)
      else .error (.ParseError
        ("Server returned unrecognised private key type \x27" ++ tag ++ "\x27")) := by
  have hd : (tag ++ ":" ++ payload).data = tag.data ++ ':' :: payload.data := by
    rw [String.data_append, String.data_append, List.append_assoc]
    rfl
  unfold parse_private_key rustSplit
  rw [hd, splitChars_append ':' _ _ ht, splitChars_of_not_mem ':' _ hp]
  rfl

/-- An unrecognized, colon-free algorithm tag produces the naming parse
error whatever the payload text holds. -/
theorem parse_private_key_unrecognised (tag payload : String)
    (htag : ':' ∉ tag.data)
    (h1 : tag ≠ "ED25519-V3") (h2 : tag ≠ "RSA1024") :
    parse_private_key (tag ++ ":" ++ payload) =
      .error (.ParseError
        ("Server returned unrecognised private key type \x27" ++ tag ++ "\x27")) := by
  have hd : (tag ++ ":" ++ payload).data = tag.data ++ ':' :: payload.data := by
    rw [String.data_append, String.data_append, List.append_assoc]
    rfl
  unfold parse_private_key rustSplit
  rw [hd, splitChars_append ':' _ _ htag]
  cases hsc : splitChars ':' payload.data with
  | nil => exact absurd hsc (splitChars_ne_nil ':' payload.data)
  | cons b bs =>
    simp only [List.map_cons, List.head?_cons, List.getElem?_cons_succ,
      List.getElem?_cons_zero]
    rw [show String.mk tag.data = tag from rfl, if_neg h1, if_neg h2]

/-- C4: an unrecognized algorithm tag in a `PrivateKey` data line makes
parsing fail with a parse error naming that tag, while the two
recognized tags map to the `Ed25519V3` and `Rsa1024` variants. -/
theorem unrecognised_tag_rejected (tag payload : String)
    (htag : ':' ∉ tag.data)
    (h1 : tag ≠ "ED25519-V3") (h2 : tag ≠ "RSA1024") :
    parseLines ["ServiceID=abc", "PrivateKey=" ++ (tag ++ ":" ++ payload), "250 OK"] =
      .error (.ParseError
        ("Server returned unrecognised private key type \x27" ++ tag ++ "\x27")) ∧
    (':' ∉ payload.data →
      parseLines ["ServiceID=abc", "PrivateKey=" ++ ("ED25519-V3" ++ ":" ++ payload), "250 OK"] =
        .ok ⟨"abc", some (.Ed25519V3 payload)⟩ ∧
      parseLines ["ServiceID=abc", "PrivateKey=" ++ ("RSA1024" ++ ":" ++ payload), "250 OK"] =
        .ok ⟨"abc", some (.Rsa1024 payload)⟩) := by
  refine ⟨?_, fun hpay => ⟨?_, ?_⟩⟩
  · rw [parseLines_single_pk, parse_private_key_unrecognised tag payload htag h1 h2]
  · rw [parseLines_single_pk,
      parse_private_key_tagged "ED25519-V3" payload (by decide) hpay,
      if_pos rfl]
  · rw [parseLines_single_pk,
      parse_private_key_tagged "RSA1024" payload (by decide) hpay,
      if_neg (by decide), if_pos rfl]

/-- Witness for C4: the spec example with tag `UNKNOWN`. -/
theorem unrecognised_tag_rejected_witness :
    parseLines ["ServiceID=abc", "PrivateKey=UNKNOWN:xyz", "250 OK"] =
      .error (.ParseError
        "Server returned unrecognised private key type \x27UNKNOWN\x27") :=
  (unrecognised_tag_rejected "UNKNOWN" "xyz" (by decide) (by decide)
    (by decide)).1

theorem processLines_no_sid (rs : List ResponseLine) (pk : Option PrivateKey)
    (h1 : ∀ r ∈ rs, (key_value r.value).1 ≠ "ServiceID")
    (h2 : ∀ r ∈ rs, (key_value r.value).1 = "PrivateKey" →
      ((parse_private_key (key_value r.value).2).toOption).isSome = true) :
    ∃ pk2, processLines rs none pk = .ok (none, pk2) := by
  induction rs generalizing pk with
  | nil => exact ⟨pk, rfl⟩
  | cons r rs ih =>
    have hr1 : (key_value r.value).1 ≠ "ServiceID" := h1 r (List.mem_cons_self r rs)
    have h1' : ∀ x ∈ rs, (key_value x.value).1 ≠ "ServiceID" :=
      fun x hx => h1 x (List.mem_cons_of_mem r hx)
    have h2' : ∀ x ∈ rs, (key_value x.value).1 = "PrivateKey" →
        ((parse_private_key (key_value x.value).2).toOption).isSome = true :=
      fun x hx => h2 x (List.mem_cons_of_mem r hx)
    by_cases hk : (key_value r.value).1 = "PrivateKey"
    · rw [processLines_cons_pk r rs none pk hk]
      have hs := h2 r (List.mem_cons_self r rs) hk
      cases hpk : parse_private_key (key_value r.value).2 with
      | error e => rw [hpk] at hs; simp [Except.toOption] at hs
      | ok k => exact ih (some k) h1' h2'
    · rw [processLines_cons_other r rs none pk hr1 hk]
      exact ih pk h1' h2'

/-- C6: a successful status line with no `ServiceID` data line, every
other line parsing cleanly, fails with the distinct missing-service-id
error. -/
theorem missing_service_id_distinct (rs : List ResponseLine) (last : ResponseLine)
    (hok : last.err = none)
    (h1 : ∀ r ∈ rs, (key_value r.value).1 ≠ "ServiceID")
    (h2 : ∀ r ∈ rs, (key_value r.value).1 = "PrivateKey" →
      ((parse_private_key (key_value r.value).2).toOption).isSome = true) :
    parse_responses (rs ++ [last]) = .error .AddOnionNoServiceId := by
  rw [parse_responses_concat rs last hok]
  obtain ⟨pk2, hpl⟩ := processLines_no_sid rs none h1 h2
  rw [hpl]

/-- Witness for C6: a valid `PrivateKey` line but no `ServiceID` line. -/
theorem missing_service_id_distinct_witness :
    parseLines ["PrivateKey=ED25519-V3:deadbeef", "250 OK"] =
      .error .AddOnionNoServiceId :=
  missing_service_id_distinct [mkResponseLine "PrivateKey=ED25519-V3:deadbeef"]
    (mkResponseLine "250 OK") rfl (by decide) (by decide)

/-- The values carried by those data lines whose key-value split has the
given key, in line order. -/
def valuesForKey (key : String) (rs : List ResponseLine) : List String :=
  rs.filterMap fun r =>
    if (key_value r.value).1 = key then some (key_value r.value).2 else none

/-- Last-seen update of an optional slot: a new sighting overwrites. -/
def lastSeen {α : Type} (base upd : Option α) : Option α :=
  match upd with
  | some v => some v
  | none => base

theorem lastSeen_none {α : Type} (o : Option α) : lastSeen none o = o := by
  cases o <;> rfl

theorem getLast_cons_eq {α : Type} (a : α) (l : List α) :
    (a :: l).getLast? = lastSeen (some a) l.getLast? := by
  cases l with
  | nil => rfl
  | cons b bs =>
    rw [List.getLast?_cons_cons]
    cases h : (b :: bs).getLast? with
    | none =>
      rw [List.getLast?_eq_none_iff] at h
      cases h
    | some v => rfl

theorem getLast_eq_some_mem {α : Type} {l : List α} {a : α}
    (h : l.getLast? = some a) : a ∈ l := by
  induction l with
  | nil => cases h
  | cons b bs ih =>
    cases bs with
    | nil =>
      simp only [List.getLast?_singleton, Option.some.injEq] at h
      subst h
      exact List.mem_cons_self b []
    | cons c cs =>
      rw [List.getLast?_cons_cons] at h
      exact List.mem_cons_of_mem b (ih h)

theorem valuesForKey_cons_pos (key : String) (r : ResponseLine)
    (rs : List ResponseLine) (h : (key_value r.value).1 = key) :
    valuesForKey key (r :: rs) = (key_value r.value).2 :: valuesForKey key rs := by
  unfold valuesForKey
  rw [List.filterMap_cons, if_pos h]

theorem valuesForKey_cons_neg (key : String) (r : ResponseLine)
    (rs : List ResponseLine) (h : (key_value r.value).1 ≠ key) :
    valuesForKey key (r :: rs) = valuesForKey key rs := by
  unfold valuesForKey
  rw [List.filterMap_cons, if_neg h]

/-- Invariant of the data-line loop: on success, the service-id slot
holds the last-seen `ServiceID` value, the private-key slot holds the
parse of the last-seen `PrivateKey` value, and every `PrivateKey` value
seen parsed successfully. -/
theorem processLines_ok_char (rs : List ResponseLine) (sid : Option String)
    (pk : Option PrivateKey) (out : Option String × Option PrivateKey)
    (h : processLines rs sid pk = .ok out) :
    out.1 = lastSeen sid (valuesForKey "ServiceID" rs).getLast? ∧
    out.2 = lastSeen pk (((valuesForKey "PrivateKey" rs).getLast?).bind
      fun v => (parse_private_key v).toOption) ∧
    ∀ v ∈ valuesForKey "PrivateKey" rs,
      ((parse_private_key v).toOption).isSome = true := by
  induction rs generalizing sid pk with
  | nil =>
    injection h with h'
    subst h'
    refine ⟨rfl, rfl, ?_⟩
    intro v hv
    simp [valuesForKey] at hv
  | cons r rs ih =>
    by_cases hsid : (key_value r.value).1 = "ServiceID"
    · rw [processLines_cons_sid r rs sid pk hsid] at h
      obtain ⟨ih1, ih2, ih3⟩ := ih (some (key_value r.value).2) pk h
      have hne : (key_value r.value).1 ≠ "PrivateKey" := by
        rw [hsid]; decide
      refine ⟨?_, ?_, ?_⟩
      · rw [valuesForKey_cons_pos "ServiceID" r rs hsid, getLast_cons_eq, ih1]
        cases (valuesForKey "ServiceID" rs).getLast? <;> rfl
      · rw [valuesForKey_cons_neg "PrivateKey" r rs hne]
        exact ih2
      · rw [valuesForKey_cons_neg "PrivateKey" r rs hne]
        exact ih3
    · by_cases hpk : (key_value r.value).1 = "PrivateKey"
      · rw [processLines_cons_pk r rs sid pk hpk] at h
        cases hparse : parse_private_key (key_value r.value).2 with
        | error e => rw [hparse] at h; simp at h
        | ok k =>
          rw [hparse] at h
          have h' : processLines rs sid (some k) = .ok out := h
          obtain ⟨ih1, ih2, ih3⟩ := ih sid (some k) h'
          refine ⟨?_, ?_, ?_⟩
          · rw [valuesForKey_cons_neg "ServiceID" r rs hsid]
            exact ih1
          · rw [valuesForKey_cons_pos "PrivateKey" r rs hpk, getLast_cons_eq, ih2]
            cases ho : (valuesForKey "PrivateKey" rs).getLast? with
            | none => simp [lastSeen, hparse, Except.toOption]
            | some v =>
              have hv : v ∈ valuesForKey "PrivateKey" rs := getLast_eq_some_mem ho
              have hsome := ih3 v hv
              cases hf : (parse_private_key v).toOption with
              | none => rw [hf] at hsome; simp at hsome
              | some w => simp [lastSeen, hf]
          · intro v hv
            rw [valuesForKey_cons_pos "PrivateKey" r rs hpk] at hv
            rcases List.mem_cons.mp hv with rfl | hv2
            · rw [hparse]; rfl
            · exact ih3 v hv2
      · rw [processLines_cons_other r rs sid pk hsid hpk] at h
        obtain ⟨ih1, ih2, ih3⟩ := ih sid pk h
        rw [valuesForKey_cons_neg "ServiceID" r rs hsid,
          valuesForKey_cons_neg "PrivateKey" r rs hpk]
        exact ⟨ih1, ih2, ih3⟩

/-- C9: when a recognized key occurs on several data lines, the
last-seen value wins: a successful parse returns the last `ServiceID`
value as the service id and the parse of the last `PrivateKey` value as
the private key. -/
theorem duplicate_keys_last_seen (rs : List ResponseLine) (last : ResponseLine)
    (resp : AddOnionResponse) (h : parse_responses (rs ++ [last]) = .ok resp) :
    (valuesForKey "ServiceID" rs).getLast? = some resp.service_id ∧
    resp.private_key = ((valuesForKey "PrivateKey" rs).getLast?).bind
      fun v => (parse_private_key v).toOption := by
  cases herr : last.err with
  | some e =>
    rw [parse_responses_status_failed rs last e herr] at h
    cases h
  | none =>
    rw [parse_responses_concat rs last herr] at h
    cases hpl : processLines rs none none with
    | error e => rw [hpl] at h; cases h
    | ok out =>
      obtain ⟨out1, out2⟩ := out
      rw [hpl] at h
      obtain ⟨ih1, ih2, -⟩ := processLines_ok_char rs none none (out1, out2) hpl
      rw [lastSeen_none] at ih1 ih2
      cases out1 with
      | none => cases h
      | some s =>
        injection h with h'
        subst h'
        exact ⟨ih1.symm, ih2⟩

/-- Witness for C9: duplicated `ServiceID` and `PrivateKey` lines, the
later value winning in each slot. -/
theorem duplicate_keys_last_seen_witness :
    (valuesForKey "ServiceID" [mkResponseLine "ServiceID=abc",
        mkResponseLine "ServiceID=def", mkResponseLine "PrivateKey=RSA1024:k1",
        mkResponseLine "PrivateKey=ED25519-V3:k2"]).getLast? = some "def" ∧
    (some (PrivateKey.Ed25519V3 "k2") : Option PrivateKey) =
      ((valuesForKey "PrivateKey" [mkResponseLine "ServiceID=abc",
        mkResponseLine "ServiceID=def", mkResponseLine "PrivateKey=RSA1024:k1",
        mkResponseLine "PrivateKey=ED25519-V3:k2"]).getLast?).bind
        fun v => (parse_private_key v).toOption :=
  duplicate_keys_last_seen [mkResponseLine "ServiceID=abc",
      mkResponseLine "ServiceID=def", mkResponseLine "PrivateKey=RSA1024:k1",
      mkResponseLine "PrivateKey=ED25519-V3:k2"] (mkResponseLine "250 OK")
    ⟨"def", some (.Ed25519V3 "k2")⟩ (by decide)

theorem processLines_ne_empty_field (rs : List ResponseLine)
    (sid : Option String) (pk : Option PrivateKey) :
    processLines rs sid pk ≠ .error (.ParseError "PrivateKey field was empty") := by
  induction rs generalizing sid pk with
  | nil => simp [processLines]
  | cons r rs ih =>
    by_cases h1 : (key_value r.value).1 = "ServiceID"
    · rw [processLines_cons_sid r rs sid pk h1]
      exact ih _ _
    · by_cases h2 : (key_value r.value).1 = "PrivateKey"
      · rw [processLines_cons_pk r rs sid pk h2]
        cases hp : parse_private_key (key_value r.value).2 with
        | error e =>
          intro he
          apply parse_private_key_ne_empty_err (key_value r.value).2
          rw [hp]
          simpa using he
        | ok k => exact ih _ _
      · rw [processLines_cons_other r rs sid pk h1 h2]
        exact ih _ _

/-- C10: the branch producing `PrivateKey field was empty` is
unreachable: splitting a string at colons always yields a first
element, so `parse_responses` never returns that error. -/
theorem empty_field_error_unreachable (responses : List ResponseLine) :
    parse_responses responses ≠ .error (.ParseError "PrivateKey field was empty") := by
  cases hl : responses.getLast? with
  | none =>
    unfold parse_responses
    rw [hl]
    simp
  | some last =>
    have hsplit : responses.dropLast ++ [last] = responses :=
      List.dropLast_append_getLast? last (by rw [hl]; rfl)
    rw [← hsplit]
    cases herr : last.err with
    | some e =>
      rw [parse_responses_status_failed responses.dropLast last e herr]
      simp
    | none =>
      rw [parse_responses_concat responses.dropLast last herr]
      cases hpl : processLines responses.dropLast none none with
      | error e =>
        intro he
        apply processLines_ne_empty_field responses.dropLast none none
        rw [hpl]
        simpa using he
      | ok out =>
        obtain ⟨s1, p1⟩ := out
        cases s1 <;> simp

theorem flag_token_no_comma : ∀ f : AddOnionFlag,
    ',' ∉ (AddOnionFlag.toString f).data := by
  intro f
  cases f <;> decide

theorem flag_token_inj : ∀ f g : AddOnionFlag,
    AddOnionFlag.toString f = AddOnionFlag.toString g → f = g := by
  intro f g
  cases f <;> cases g <;> decide

theorem flag_token_ne_nil : ∀ f : AddOnionFlag,
    (AddOnionFlag.toString f).data ≠ [] := by
  intro f
  cases f <;> decide

/-- Cancellation along a comma: two comma-free prefixes followed by a
comma determine each other. -/
theorem comma_prefix_cancel : ∀ (t₁ t₂ r₁ r₂ : List Char), ',' ∉ t₁ → ',' ∉ t₂ →
    t₁ ++ ',' :: r₁ = t₂ ++ ',' :: r₂ → t₁ = t₂ ∧ r₁ = r₂ := by
  intro t₁
  induction t₁ with
  | nil =>
    intro t₂ r₁ r₂ h₁ h₂ h
    cases t₂ with
    | nil => simpa using h
    | cons b bs =>
      simp only [List.nil_append, List.cons_append, List.cons.injEq] at h
      obtain ⟨hb, -⟩ := h
      cases hb
      exact absurd (List.mem_cons_self ',' bs) h₂
  | cons a as ih =>
    intro t₂ r₁ r₂ h₁ h₂ h
    cases t₂ with
    | nil =>
      simp only [List.nil_append, List.cons_append, List.cons.injEq] at h
      obtain ⟨hb, -⟩ := h
      cases hb
      exact absurd (List.mem_cons_self ',' as) h₁
    | cons b bs =>
      simp only [List.cons_append, List.cons.injEq] at h
      obtain ⟨hb, h'⟩ := h
      subst hb
      have h₁' : ',' ∉ as := fun hm => h₁ (List.mem_cons_of_mem a hm)
      have h₂' : ',' ∉ bs := fun hm => h₂ (List.mem_cons_of_mem a hm)
      obtain ⟨he, hr⟩ := ih bs r₁ r₂ h₁' h₂' h'
      exact ⟨by rw [he], hr⟩

/-- The comma-joined flag list determines the flag list. -/
theorem joinComma_flags_inj : ∀ (l₁ l₂ : List AddOnionFlag),
    joinComma (l₁.map AddOnionFlag.toString) =
      joinComma (l₂.map AddOnionFlag.toString) → l₁ = l₂ := by
  intro l₁
  induction l₁ with
  | nil =>
    intro l₂ h
    cases l₂ with
    | nil => rfl
    | cons b bs =>
      exfalso
      cases bs with
      | nil =>
        simp only [List.map_nil, List.map_cons, joinComma] at h
        exact flag_token_ne_nil b (congrArg String.data h.symm)
      | cons c cs =>
        have hd := congrArg String.data h
        simp only [List.map_nil, List.map_cons, joinComma] at hd
        rw [String.data_append, String.data_append] at hd
        obtain ⟨h1, -⟩ := List.append_eq_nil.mp hd.symm
        obtain ⟨h2, -⟩ := List.append_eq_nil.mp h1
        exact flag_token_ne_nil b h2
  | cons a as ih =>
    intro l₂ h
    cases l₂ with
    | nil =>
      exfalso
      cases as with
      | nil =>
        simp only [List.map_nil, List.map_cons, joinComma] at h
        exact flag_token_ne_nil a (congrArg String.data h)
      | cons c cs =>
        have hd := congrArg String.data h
        simp only [List.map_nil, List.map_cons, joinComma] at hd
        rw [String.data_append, String.data_append] at hd
        obtain ⟨h1, -⟩ := List.append_eq_nil.mp hd
        obtain ⟨h2, -⟩ := List.append_eq_nil.mp h1
        exact flag_token_ne_nil a h2
    | cons b bs =>
      cases as with
      | nil =>
        cases bs with
        | nil =>
          simp only [List.map_nil, List.map_cons, joinComma] at h
          rw [flag_token_inj a b h]
        | cons c cs =>
          exfalso
          have hd := congrArg String.data h
          simp only [List.map_nil, List.map_cons, joinComma] at hd
          rw [String.data_append, String.data_append] at hd
          apply flag_token_no_comma a
          rw [hd]
          exact List.mem_append.mpr (Or.inl (List.mem_append.mpr (Or.inr (by decide))))
      | cons a2 as2 =>
        cases bs with
        | nil =>
          exfalso
          have hd := congrArg String.data h
          simp only [List.map_nil, List.map_cons, joinComma] at hd
          rw [String.data_append, String.data_append] at hd
          apply flag_token_no_comma b
          rw [← hd]
          exact List.mem_append.mpr (Or.inl (List.mem_append.mpr (Or.inr (by decide))))
        | cons b2 bs2 =>
          have hd := congrArg String.data h
          simp only [List.map_cons, joinComma] at hd
          rw [String.data_append, String.data_append,
            String.data_append, String.data_append,
            List.append_assoc, List.append_assoc] at hd
          rw [show ("," : String).data = [','] from rfl,
            List.singleton_append, List.singleton_append] at hd
          obtain ⟨hta, htj⟩ := comma_prefix_cancel _ _ _ _
            (flag_token_no_comma a) (flag_token_no_comma b) hd
          have hab := flag_token_inj a b (String.ext hta)
          have htail := ih (b2 :: bs2) (String.ext htj)
          rw [hab, htail]

/-- The wire line of a command with a non-empty flag list, grouped
around its flags clause. -/
theorem to_command_string_shape (c : AddOnion) (h : c.flags ≠ []) :
    to_command_string c = .ok
      (("ADD_ONION " ++ c.key_type.as_tor_repr ++ ":" ++ c.key_blob.as_tor_repr ++
        (" Flags=" ++ joinComma (c.flags.map AddOnionFlag.toString))) ++
       ((match c.num_streams with
         | some n => " NumStreams=" ++ toString n.val
         | none => "") ++
        (" Port=" ++ toString c.port.1 ++
         (match c.port.2 with
          | some addr => "," ++ addr
          | none => "")))) := by
  obtain ⟨kt, kb, fl, p, ns⟩ := c
  simp only [to_command_string, push_colon]
  cases fl with
  | nil => exact absurd rfl h
  | cons f fs =>
    cases ns <;> simp [String.append_assoc, str_empty_append]

/-- C8: flags serialize in insertion order, and the order is observable:
two commands identical except for the order of the same distinct flags
produce different wire strings. -/
theorem flags_insertion_order_observable (c₁ c₂ : AddOnion)
    (hkt : c₁.key_type = c₂.key_type) (hkb : c₁.key_blob = c₂.key_blob)
    (hport : c₁.port = c₂.port) (hns : c₁.num_streams = c₂.num_streams)
    (hperm : c₁.flags.Perm c₂.flags) (hnd : c₁.flags.Nodup)
    (hlen : 2 ≤ c₁.flags.length) (hne : c₁.flags ≠ c₂.flags) :
    to_command_string c₁ ≠ to_command_string c₂ := by
  intro heq
  have hf₁ : c₁.flags ≠ [] := by
    intro h0
    rw [h0] at hlen
    simp at hlen
  have hf₂ : c₂.flags ≠ [] := by
    intro h0
    rw [h0] at hperm
    exact hf₁ (List.Perm.eq_nil hperm)
  rw [to_command_string_shape c₁ hf₁, to_command_string_shape c₂ hf₂,
    ← hkt, ← hkb, ← hport, ← hns] at heq
  injection heq with heq
  have hd := congrArg String.data heq
  simp only [String.data_append] at hd
  have h1 := List.append_cancel_right hd
  have h2 := List.append_cancel_left h1
  have h3 := List.append_cancel_left h2
  exact hne (joinComma_flags_inj _ _ (String.ext h3))

/-- Witness for C8: the same two flags in the two insertion orders give
different wire strings. -/
theorem flags_insertion_order_observable_witness :
    to_command_string ⟨.New, ⟨"k"⟩, [.DiscardPK, .Detach], (9090, none), none⟩ ≠
    to_command_string ⟨.New, ⟨"k"⟩, [.Detach, .DiscardPK], (9090, none), none⟩ :=
  flags_insertion_order_observable
    ⟨.New, ⟨"k"⟩, [.DiscardPK, .Detach], (9090, none), none⟩
    ⟨.New, ⟨"k"⟩, [.Detach, .DiscardPK], (9090, none), none⟩
    rfl rfl rfl rfl (by decide) (by decide) (by decide) (by decide)

end Tari.Tor
